import Mathlib

/-!
Verification of the `@cgvweb/vue-calendar` composables (`useCalendar.ts`).

The repository consumes `@internationalized/date` as an opaque date
capability (addition/subtraction of months, start/end of month,
comparison, day of week).  We embed that capability as proleptic
Gregorian calendar arithmetic on explicit `(year, month, day)` records,
with a rata-die day count giving the linear order and the day of week.

The grid-building helper `createMonths` and the comparison helpers
`isAfter`/`isBefore` live in the repository's `utils` module, whose
implementation is not part of the sources we were given (only its type
declarations are); those definitions are modelled from the spec, as
marked in their doc comments.  Everything else is translated from
`src/composables/useCalendar.ts`.
-/

namespace VueCal

/-- Gregorian leap-year test (proleptic, all integer years). -/
def isLeap (y : Int) : Bool :=
  decide ((y % 4 = 0 ∧ y % 100 ≠ 0) ∨ y % 400 = 0)

/-- Number of days in month `m` (1-12) of year `y`. -/
def daysInMonth (y : Int) (m : Nat) : Nat :=
  if m = 2 then (if isLeap y then 29 else 28)
  else if m = 4 then 30
  else if m = 6 then 30
  else if m = 9 then 30
  else if m = 11 then 30
  else 31

/-- Cumulative day count before month `m` in a non-leap year. -/
def monthOffset (m : Nat) : Nat :=
  if m ≤ 1 then 0
  else if m = 2 then 31
  else if m = 3 then 59
  else if m = 4 then 90
  else if m = 5 then 120
  else if m = 6 then 151
  else if m = 7 then 181
  else if m = 8 then 212
  else if m = 9 then 243
  else if m = 10 then 273
  else if m = 11 then 304
  else 334

/-- Days of year `y` that lie strictly before month `m`. -/
def daysBeforeMonth (y : Int) (m : Nat) : Nat :=
  monthOffset m + (if 3 ≤ m then (if isLeap y then 1 else 0) else 0)

/-- Days strictly before January 1 of year `y` (proleptic Gregorian). -/
def daysBeforeYear (y : Int) : Int :=
  365 * (y - 1) + (y - 1) / 4 - (y - 1) / 100 + (y - 1) / 400

/-- A calendar date, mirroring the `year`/`month`/`day` fields of
`@internationalized/date`'s `CalendarDate`. -/
structure CalDate where
  year : Int
  month : Nat
  day : Nat
deriving DecidableEq, Repr, Inhabited

/-- A well-formed Gregorian date. -/
def validDate (d : CalDate) : Prop :=
  1 ≤ d.month ∧ d.month ≤ 12 ∧ 1 ≤ d.day ∧ d.day ≤ daysInMonth d.year d.month

instance : DecidablePred validDate := fun d => by
  unfold validDate; infer_instance

/-- Rata-die: linear day number of a date (Jan 1 of year 1 is day 1). -/
def rataDie (d : CalDate) : Int :=
  daysBeforeYear d.year + (daysBeforeMonth d.year d.month : Int) + (d.day : Int)

/-- Day of week as `0..6` with `0 = Sunday` (rata-die day 1 is a Monday). -/
def dayOfWeekN (d : CalDate) : Nat := ((rataDie d) % 7).toNat

/-- Successor day in the Gregorian calendar. -/
def nextDay (d : CalDate) : CalDate :=
  if d.day < daysInMonth d.year d.month then ⟨d.year, d.month, d.day + 1⟩
  else if d.month < 12 then ⟨d.year, d.month + 1, 1⟩
  else ⟨d.year + 1, 1, 1⟩

/-- Predecessor day in the Gregorian calendar. -/
def prevDay (d : CalDate) : CalDate :=
  if 1 < d.day then ⟨d.year, d.month, d.day - 1⟩
  else if 1 < d.month then ⟨d.year, d.month - 1, daysInMonth d.year (d.month - 1)⟩
  else ⟨d.year - 1, 12, 31⟩

theorem one_le_daysInMonth (y : Int) (m : Nat) : 1 ≤ daysInMonth y m := by
  unfold daysInMonth; split_ifs <;> omega

theorem daysInMonth_bounds (y : Int) (m : Nat) (h1 : 1 ≤ m) (h2 : m ≤ 12) :
    28 ≤ daysInMonth y m ∧ daysInMonth y m ≤ 31 := by
  unfold daysInMonth; split_ifs <;> omega

theorem daysBeforeYear_succ (y : Int) :
    daysBeforeYear (y + 1) = daysBeforeYear y + 365 + (if isLeap y then 1 else 0) := by
  unfold daysBeforeYear
  by_cases hp : ((y % 4 = 0 ∧ y % 100 ≠ 0) ∨ y % 400 = 0)
  · rw [show isLeap y = true from decide_eq_true hp]
    rw [if_pos rfl]
    rcases hp with ⟨h4, h100⟩ | h400 <;> omega
  · rw [show isLeap y = false from decide_eq_false hp]
    rw [if_neg (by exact Bool.false_ne_true)]
    push_neg at hp
    obtain ⟨hp1, hp2⟩ := hp
    by_cases h4 : y % 4 = 0
    · have h100 := hp1 h4
      omega
    · omega

theorem daysBeforeMonth_succ (y : Int) (m : Nat) (h1 : 1 ≤ m) (h2 : m ≤ 11) :
    daysBeforeMonth y (m + 1) = daysBeforeMonth y m + daysInMonth y m := by
  unfold daysBeforeMonth monthOffset daysInMonth
  cases hL : isLeap y <;> interval_cases m <;> simp [hL]

theorem validDate_nextDay {d : CalDate} (h : validDate d) : validDate (nextDay d) := by
  obtain ⟨h1, h2, h3, h4⟩ := h
  have hd1 := one_le_daysInMonth d.year (d.month + 1)
  have hd2 := one_le_daysInMonth (d.year + 1) 1
  unfold nextDay
  split_ifs with hlt hm <;> unfold validDate <;> dsimp only <;> omega

theorem daysInMonth_twelve (y : Int) : daysInMonth y 12 = 31 := by
  unfold daysInMonth; norm_num

theorem rataDie_nextDay {d : CalDate} (h : validDate d) :
    rataDie (nextDay d) = rataDie d + 1 := by
  obtain ⟨h1, h2, h3, h4⟩ := h
  unfold nextDay
  split_ifs with hlt hm
  · unfold rataDie; dsimp only; push_cast; ring
  · have hday : d.day = daysInMonth d.year d.month := by omega
    have hms := daysBeforeMonth_succ d.year d.month h1 (by omega)
    unfold rataDie; dsimp only
    rw [hms, hday]; push_cast; ring
  · have hm12 : d.month = 12 := by omega
    have h31 : daysInMonth d.year d.month = 31 := by rw [hm12, daysInMonth_twelve]
    have hday : d.day = 31 := by omega
    have hy := daysBeforeYear_succ d.year
    have hdbm12 : daysBeforeMonth d.year 12 =
        334 + (if isLeap d.year then 1 else 0) := by
      unfold daysBeforeMonth monthOffset; norm_num
    have hdbm1 : daysBeforeMonth (d.year + 1) 1 = 0 := by
      unfold daysBeforeMonth monthOffset; norm_num
    unfold rataDie; dsimp only
    rw [hm12, hday, hdbm1, hdbm12, hy]
    cases isLeap d.year <;> simp <;> push_cast <;> ring

theorem validDate_prevDay {d : CalDate} (h : validDate d) : validDate (prevDay d) := by
  obtain ⟨h1, h2, h3, h4⟩ := h
  have hd1 := one_le_daysInMonth d.year (d.month - 1)
  have hd2 := daysInMonth_twelve (d.year - 1)
  unfold prevDay
  split_ifs with hlt hm <;> unfold validDate <;> dsimp only <;> omega

theorem rataDie_prevDay {d : CalDate} (h : validDate d) :
    rataDie (prevDay d) = rataDie d - 1 := by
  obtain ⟨h1, h2, h3, h4⟩ := h
  unfold prevDay
  split_ifs with hlt hm
  · unfold rataDie; dsimp only
    have hc : ((d.day - 1 : Nat) : Int) = (d.day : Int) - 1 := by omega
    rw [hc]; ring
  · have hday : d.day = 1 := by omega
    have hms := daysBeforeMonth_succ d.year (d.month - 1) (by omega) (by omega)
    have hmm : d.month - 1 + 1 = d.month := by omega
    rw [hmm] at hms
    unfold rataDie; dsimp only
    rw [hms, hday]; push_cast; ring
  · have hm1 : d.month = 1 := by omega
    have hday : d.day = 1 := by omega
    have hy := daysBeforeYear_succ (d.year - 1)
    have hyy : d.year - 1 + 1 = d.year := by ring
    rw [hyy] at hy
    have hdbm12 : daysBeforeMonth (d.year - 1) 12 =
        334 + (if isLeap (d.year - 1) then 1 else 0) := by
      unfold daysBeforeMonth monthOffset; norm_num
    have hdbm1 : daysBeforeMonth d.year 1 = 0 := by
      unfold daysBeforeMonth monthOffset; norm_num
    unfold rataDie; dsimp only
    rw [hm1, hday, hdbm1, hdbm12]
    cases hL : isLeap (d.year - 1) <;> simp [hL] at hy ⊢ <;> omega

/-- Advance a date by `n` calendar days. -/
def addDays (d : CalDate) : Nat → CalDate
  | 0 => d
  | n + 1 => nextDay (addDays d n)

/-- Move a date back by `n` calendar days. -/
def subDays (d : CalDate) : Nat → CalDate
  | 0 => d
  | n + 1 => prevDay (subDays d n)

theorem validDate_addDays {d : CalDate} (h : validDate d) (n : Nat) :
    validDate (addDays d n) := by
  induction n with
  | zero => exact h
  | succ k ih => exact validDate_nextDay ih

theorem rataDie_addDays {d : CalDate} (h : validDate d) (n : Nat) :
    rataDie (addDays d n) = rataDie d + n := by
  induction n with
  | zero => simp [addDays]
  | succ k ih =>
    have hr := rataDie_nextDay (validDate_addDays h k)
    unfold addDays
    rw [hr, ih]; push_cast; ring

theorem validDate_subDays {d : CalDate} (h : validDate d) (n : Nat) :
    validDate (subDays d n) := by
  induction n with
  | zero => exact h
  | succ k ih => exact validDate_prevDay ih

/-- `startOfMonth` of `@internationalized/date`: first day of the date's month. -/
def startOfMonth (d : CalDate) : CalDate := ⟨d.year, d.month, 1⟩

/-- `endOfMonth` of `@internationalized/date`: last day of the date's month. -/
def endOfMonth (d : CalDate) : CalDate := ⟨d.year, d.month, daysInMonth d.year d.month⟩

/-- Linear month index of a date (months since month 1 of year 0). -/
def monthIdx (d : CalDate) : Int := 12 * d.year + (d.month : Int) - 1

/-- `date.add({ months: n })` / `date.subtract({ months: n })` of
`@internationalized/date`: shift by `n` months, clamping the day to the
length of the target month. -/
def addMonths (d : CalDate) (n : Int) : CalDate :=
  let i := monthIdx d + n
  let y := i / 12
  let m := (i % 12).toNat + 1
  ⟨y, m, min d.day (daysInMonth y m)⟩

/-- `isSameDay` of `@internationalized/date` restricted to the
Gregorian calendar: same year, month and day. -/
def isSameDay (a b : CalDate) : Bool :=
  decide (a.year = b.year ∧ a.month = b.month ∧ a.day = b.day)

/-- `isSameMonth` of `@internationalized/date` restricted to the
Gregorian calendar: same year and month. -/
def isSameMonth (a b : CalDate) : Bool :=
  decide (a.year = b.year ∧ a.month = b.month)

/-- Modelled from the spec: the `utils` module's `isAfter` (its source is
not under `src/`; §6 specifies `compare(other) → {before, same, after}`).
`isAfter a b` holds when `a` is strictly later than `b` in the
chronological (lexicographic year/month/day) order. -/
def isAfter (a b : CalDate) : Bool :=
  decide (b.year < a.year ∨ (a.year = b.year ∧ (b.month < a.month ∨
    (a.month = b.month ∧ b.day < a.day))))

/-- Modelled from the spec: the `utils` module's `isBefore` (its source is
not under `src/`; §6 specifies `compare(other) → {before, same, after}`).
`isBefore a b` holds when `a` is strictly earlier than `b`. -/
def isBefore (a b : CalDate) : Bool :=
  decide (a.year < b.year ∨ (a.year = b.year ∧ (a.month < b.month ∨
    (a.month = b.month ∧ a.day < b.day))))

theorem monthIdx_addMonths (d : CalDate) (n : Int) :
    monthIdx (addMonths d n) = monthIdx d + n := by
  unfold addMonths monthIdx
  dsimp only
  omega

theorem addMonths_month_range (d : CalDate) (n : Int) :
    1 ≤ (addMonths d n).month ∧ (addMonths d n).month ≤ 12 := by
  unfold addMonths
  dsimp only
  omega

theorem addMonths_day_one {d : CalDate} (hd : d.day = 1) (n : Int) :
    (addMonths d n).day = 1 := by
  have h1 := one_le_daysInMonth ((monthIdx d + n) / 12) (((monthIdx d + n) % 12).toNat + 1)
  unfold addMonths
  dsimp only
  omega

theorem validDate_addMonths {d : CalDate} (hd : 1 ≤ d.day) (n : Int) :
    validDate (addMonths d n) := by
  have h1 := one_le_daysInMonth ((monthIdx d + n) / 12) (((monthIdx d + n) % 12).toNat + 1)
  unfold addMonths validDate
  dsimp only
  omega

theorem addMonths_zero {d : CalDate} (h : validDate d) : addMonths d 0 = d := by
  obtain ⟨h1, h2, h3, h4⟩ := h
  unfold addMonths monthIdx
  cases d with
  | mk y m day =>
    dsimp only at h1 h2 h3 h4 ⊢
    have hy : (12 * y + (m : Int) - 1 + 0) / 12 = y := by omega
    have hm : ((12 * y + (m : Int) - 1 + 0) % 12).toNat + 1 = m := by omega
    rw [hy, hm]
    have : min day (daysInMonth y m) = day := by omega
    rw [this]

theorem addMonths_of_day_one {d : CalDate} (hd : d.day = 1) (n : Int) :
    addMonths d n =
      ⟨(monthIdx d + n) / 12, ((monthIdx d + n) % 12).toNat + 1, 1⟩ := by
  have h1 := one_le_daysInMonth ((monthIdx d + n) / 12) (((monthIdx d + n) % 12).toNat + 1)
  unfold addMonths
  dsimp only
  congr 1
  omega

theorem monthIdx_eq_of_ranges {a b : CalDate} (ha1 : 1 ≤ a.month) (ha2 : a.month ≤ 12)
    (hb1 : 1 ≤ b.month) (hb2 : b.month ≤ 12) (h : monthIdx a = monthIdx b) :
    a.year = b.year ∧ a.month = b.month := by
  unfold monthIdx at h
  omega

theorem isSameMonth_iff (a b : CalDate) :
    isSameMonth a b = true ↔ (a.year = b.year ∧ a.month = b.month) := by
  unfold isSameMonth
  exact decide_eq_true_iff

theorem isSameMonth_monthIdx {a b : CalDate} (h : isSameMonth a b = true) :
    monthIdx a = monthIdx b := by
  rw [isSameMonth_iff] at h
  unfold monthIdx
  omega

theorem startOfMonth_day_one {d : CalDate} (hd : d.day = 1) : startOfMonth d = d := by
  cases d with
  | mk y m day =>
    unfold startOfMonth
    dsimp only at hd ⊢
    rw [hd]

theorem validDate_startOfMonth {d : CalDate} (h1 : 1 ≤ d.month) (h2 : d.month ≤ 12) :
    validDate (startOfMonth d) := by
  unfold startOfMonth validDate
  dsimp only
  have := one_le_daysInMonth d.year d.month
  omega

theorem rataDie_endOfMonth (d : CalDate) :
    rataDie (endOfMonth d) = rataDie (startOfMonth d) + (daysInMonth d.year d.month : Int) - 1 := by
  unfold rataDie endOfMonth startOfMonth
  dsimp only
  push_cast
  ring

/-- The `MonthGrid` record of `utils`: the canonical month value and the
flattened sequence of grid dates. -/
structure MonthGrid where
  month : CalDate
  dates : List CalDate
deriving DecidableEq, Repr, Inhabited

/-- Step of the `fixedWeeks` extension loop: add whole weeks until the
day count reaches 42.  The fuel `6` makes the recursion structural; six
steps always suffice since each adds 7 days and the count starts at 0 or
more (`0 + 6 * 7 = 42`), so this equals the unbounded loop of the spec. -/
def extendWeeksAux : Nat → Nat → Nat
  | 0, n => n
  | fuel + 1, n => if 42 ≤ n then n else extendWeeksAux fuel (n + 7)

/-- Modelled from the spec: §4.1 step 4 — under `fixedWeeks`, extend the
trailing end one week at a time until the total day count reaches 42. -/
def extendWeeks (n : Nat) : Nat := extendWeeksAux 6 n

/-- Modelled from the spec: the `utils` module's per-month grid builder
(its source is not under `src/`).  Follows §4.1: walk back from the
first of the month to the week start, walk forward from the last of the
month to the week end, optionally extend to 42 days, and emit every day
of that range in ascending order. -/
def createMonth (weekStartsOn : Fin 7) (fixedWeeks : Bool) (monthDate : CalDate) : MonthGrid :=
  let first := startOfMonth monthDate
  let back := (dayOfWeekN first + 7 - weekStartsOn.val) % 7
  let dim := daysInMonth monthDate.year monthDate.month
  let fwd := (weekStartsOn.val + 13 - dayOfWeekN (endOfMonth monthDate)) % 7
  let total0 := back + dim + fwd
  let total := if fixedWeeks then extendWeeks total0 else total0
  let gridStart := subDays first back
  ⟨first, (List.range total).map (fun i => addDays gridStart i)⟩

/-- The configuration of `useCalendar`, i.e. the non-reactive fields of
`UseCalendarProps` (`weekStartsOn` has the TypeScript type
`DayOfWeek = 0 | 1 | 2 | 3 | 4 | 5 | 6`, embedded as `Fin 7`). -/
structure CalConfig where
  weekStartsOn : Fin 7
  numberOfMonths : Nat
  fixedWeeks : Bool
  pagedNavigation : Bool
  isDateDisabledProp : Option (CalDate → Bool)
  isDateUnavailableProp : Option (CalDate → Bool)

/-- Modelled from the spec: the `utils` module's `createMonths` (its
source is not under `src/`).  Per §4.1, one grid per month index `i` in
`[0, numberOfMonths)`, each built for `referenceDate.addMonths(i)`. -/
def createMonths (cfg : CalConfig) (dateObj : CalDate) : List MonthGrid :=
  (List.range cfg.numberOfMonths).map
    (fun i => createMonth cfg.weekStartsOn cfg.fixedWeeks (addMonths dateObj (Int.ofNat i)))

theorem extendWeeks_eq_42 {n : Nat} (h7 : n % 7 = 0) (h1 : 28 ≤ n) (h2 : n ≤ 42) :
    extendWeeks n = 42 := by
  have : n = 28 ∨ n = 35 ∨ n = 42 := by omega
  rcases this with rfl | rfl | rfl <;> rfl

theorem grid_total_arith (r : Int) (dim ws : Nat) (hws : ws < 7)
    (hd1 : 28 ≤ dim) (hd2 : dim ≤ 31) :
    (((r % 7).toNat + 7 - ws) % 7 + dim + (ws + 13 - ((r + dim - 1) % 7).toNat) % 7) % 7 = 0 ∧
    28 ≤ ((r % 7).toNat + 7 - ws) % 7 + dim + (ws + 13 - ((r + dim - 1) % 7).toNat) % 7 ∧
    ((r % 7).toNat + 7 - ws) % 7 + dim + (ws + 13 - ((r + dim - 1) % 7).toNat) % 7 ≤ 42 := by
  omega

theorem createMonth_month (ws : Fin 7) (fw : Bool) (md : CalDate) :
    (createMonth ws fw md).month = startOfMonth md := rfl

theorem createMonth_shape (ws : Fin 7) (fw : Bool) (md : CalDate) (h : validDate md) :
    ∃ start total,
      createMonth ws fw md = ⟨startOfMonth md, (List.range total).map (fun i => addDays start i)⟩ ∧
      validDate start ∧ total % 7 = 0 ∧ 28 ≤ total ∧ total ≤ 42 ∧
      (fw = true → total = 42) := by
  obtain ⟨h1, h2, h3, h4⟩ := h
  obtain ⟨hd1, hd2⟩ := daysInMonth_bounds md.year md.month h1 h2
  have hsom : validDate (startOfMonth md) := validDate_startOfMonth h1 h2
  have hb : dayOfWeekN (startOfMonth md) = ((rataDie (startOfMonth md)) % 7).toNat := rfl
  have he : dayOfWeekN (endOfMonth md) =
      ((rataDie (startOfMonth md) + (daysInMonth md.year md.month : Int) - 1) % 7).toNat := by
    unfold dayOfWeekN
    rw [rataDie_endOfMonth]
  obtain ⟨t7, t28, t42⟩ := grid_total_arith (rataDie (startOfMonth md))
    (daysInMonth md.year md.month) ws.val ws.isLt hd1 hd2
  rw [← hb, ← he] at t7 t28 t42
  refine ⟨subDays (startOfMonth md)
      ((dayOfWeekN (startOfMonth md) + 7 - ws.val) % 7),
    (if fw then
      extendWeeks ((dayOfWeekN (startOfMonth md) + 7 - ws.val) % 7 +
        daysInMonth md.year md.month +
        (ws.val + 13 - dayOfWeekN (endOfMonth md)) % 7)
    else
      (dayOfWeekN (startOfMonth md) + 7 - ws.val) % 7 +
        daysInMonth md.year md.month +
        (ws.val + 13 - dayOfWeekN (endOfMonth md)) % 7),
    rfl, validDate_subDays hsom _, ?_, ?_, ?_, ?_⟩
  · split_ifs with hfw
    · rw [extendWeeks_eq_42 t7 t28 t42]
    · exact t7
  · split_ifs with hfw
    · rw [extendWeeks_eq_42 t7 t28 t42]; omega
    · exact t28
  · split_ifs with hfw
    · rw [extendWeeks_eq_42 t7 t28 t42]
    · exact t42
  · intro hfw
    rw [if_pos hfw]
    exact extendWeeks_eq_42 t7 t28 t42

theorem createMonths_length (cfg : CalConfig) (d : CalDate) :
    (createMonths cfg d).length = cfg.numberOfMonths := by
  unfold createMonths
  rw [List.length_map, List.length_range]

theorem createMonths_mem {cfg : CalConfig} {d : CalDate} {g : MonthGrid}
    (hg : g ∈ createMonths cfg d) :
    ∃ i : Nat, i < cfg.numberOfMonths ∧
      g = createMonth cfg.weekStartsOn cfg.fixedWeeks (addMonths d (Int.ofNat i)) := by
  unfold createMonths at hg
  obtain ⟨i, hi, rfl⟩ := List.mem_map.mp hg
  exact ⟨i, List.mem_range.mp hi, rfl⟩

theorem createMonths_head {cfg : CalConfig} {d : CalDate} {g : MonthGrid} {t : List MonthGrid}
    (h : createMonths cfg d = g :: t) :
    g = createMonth cfg.weekStartsOn cfg.fixedWeeks (addMonths d 0) := by
  unfold createMonths at h
  cases hn : cfg.numberOfMonths with
  | zero => rw [hn] at h; simp at h
  | succ k =>
    rw [hn, List.range_succ_eq_map, List.map_cons] at h
    have := (List.cons.injEq _ _ _ _).mp h
    rw [← this.1]
    norm_num

theorem createMonths_ne_nil {cfg : CalConfig} {d : CalDate} (h : 0 < cfg.numberOfMonths) :
    createMonths cfg d ≠ [] := by
  intro hc
  have := createMonths_length cfg d
  rw [hc] at this
  simp at this
  omega

/-- The reactive inputs of `UseCalendarProps` that are read through
`toValue` (`MaybeRefOrGetter` fields plus the `disabled` flag); an `Env`
is their value at one instant. -/
structure Env where
  minValue : Option CalDate
  maxValue : Option CalDate
  disabled : Bool

/-- The mutable state owned by one `useCalendar` call: the `months` ref,
the shared `dateCursor` ref, and the `minValue`/`maxValue` constants
captured at construction (lines 87-89). -/
structure CalState where
  months : List MonthGrid
  cursor : CalDate
  minValue : Option CalDate
  maxValue : Option CalDate
deriving DecidableEq, Repr

/-- Construction of `useCalendar` (lines 85-99): capture `minValue` and
`maxValue` once from the current inputs and build the initial window
from the cursor. -/
def useCalendarInit (cfg : CalConfig) (env : Env) (cursor0 : CalDate) : CalState :=
  { months := createMonths cfg cursor0
    cursor := cursor0
    minValue := env.minValue
    maxValue := env.maxValue }

/-- Step size of a navigation action (lines 156 and 171):
`numberOfMonths` under paged navigation, else one month. -/
def stepSize (cfg : CalConfig) : Nat :=
  if cfg.pagedNavigation then cfg.numberOfMonths else 1

/-- The `watch(props.dateCursor, ...)` callback (lines 177-188): after
the cursor ref changed from `oldCursor` to `s.cursor`, rebuild the
window from the new cursor unless the month is unchanged. -/
def watchCursor (cfg : CalConfig) (s : CalState) (oldCursor : CalDate) : CalState :=
  if isSameMonth s.cursor oldCursor then s
  else { s with months := createMonths cfg s.cursor }

/-- `nextPage` (lines 148-161): rebuild the window one step forward from
the first visible month, assign it to `months`, set the cursor to the
start of the new first month, then let the cursor watcher run.  `none`
models the TypeError thrown when `months[0]` or `newMonths[0]` is
`undefined`. -/
def nextPage (cfg : CalConfig) (s : CalState) : Option CalState :=
  match s.months.head? with
  | none => none
  | some g =>
    match (createMonths cfg (addMonths g.month (Int.ofNat (stepSize cfg)))).head? with
    | none => none
    | some g2 =>
      some (watchCursor cfg
        { s with
          months := createMonths cfg (addMonths g.month (Int.ofNat (stepSize cfg)))
          cursor := startOfMonth g2.month } s.cursor)

/-- `prevPage` (lines 163-175): like `nextPage` but stepping backward;
the source never assigns the freshly built `newMonths` to `months` — it
only moves the cursor, and the window is rebuilt by the cursor
watcher. -/
def prevPage (cfg : CalConfig) (s : CalState) : Option CalState :=
  match s.months.head? with
  | none => none
  | some g =>
    match (createMonths cfg (addMonths g.month (-(Int.ofNat (stepSize cfg))))).head? with
    | none => none
    | some g2 =>
      some (watchCursor cfg { s with cursor := startOfMonth g2.month } s.cursor)

/-- An externally driven `dateCursor` change, observed by the watcher. -/
def setCursor (cfg : CalConfig) (s : CalState) (v : CalDate) : CalState :=
  watchCursor cfg { s with cursor := v } s.cursor

/-- `isNextButtonDisabled` (lines 107-114): `false` when there is no
`maxValue` or no visible months; otherwise `true` when globally disabled
or when the first day of the next page falls strictly after `maxValue`. -/
def isNextButtonDisabled (s : CalState) (env : Env) : Bool :=
  match s.maxValue, s.months.getLast? with
  | none, _ => false
  | some _, none => false
  | some mx, some g => env.disabled || isAfter (startOfMonth (addMonths g.month 1)) mx

/-- `isPrevButtonDisabled` (lines 116-123): `false` when there is no
`minValue` or no visible months; otherwise `true` when globally disabled
or when the last day of the previous page falls strictly before
`minValue`. -/
def isPrevButtonDisabled (s : CalState) (env : Env) : Bool :=
  match s.minValue, s.months.head? with
  | none, _ => false
  | some _, none => false
  | some mn, some g => env.disabled || isBefore (endOfMonth (addMonths g.month (-1))) mn

/-- `isDateDisabled` (lines 125-130): supplied predicate, global
disabled flag, or outside the captured `minValue`/`maxValue` bounds. -/
def isDateDisabled (cfg : CalConfig) (s : CalState) (env : Env) (d : CalDate) : Bool :=
  (match cfg.isDateDisabledProp with | some p => p d | none => false) ||
  env.disabled ||
  (match s.maxValue with | some mx => isAfter d mx | none => false) ||
  (match s.minValue with | some mn => isBefore d mn | none => false)

/-- States a `useCalendar` controller can be in: freshly constructed, or
reached through `nextPage`, `prevPage`, or an external cursor change
(always a real `DateValue`, hence valid). -/
inductive Reachable (cfg : CalConfig) : CalState → Prop where
  | init (env : Env) (c0 : CalDate) (h : validDate c0) :
      Reachable cfg (useCalendarInit cfg env c0)
  | next (s s' : CalState) (hs : Reachable cfg s) (h : nextPage cfg s = some s') :
      Reachable cfg s'
  | prev (s s' : CalState) (hs : Reachable cfg s) (h : prevPage cfg s = some s') :
      Reachable cfg s'
  | cursor (s : CalState) (v : CalDate) (hv : validDate v) (hs : Reachable cfg s) :
      Reachable cfg (setCursor cfg s v)

/-- Controller invariant: the cursor is a valid date and the window is
exactly the grid set built for some valid reference date in the
cursor's month. -/
def Inv (cfg : CalConfig) (s : CalState) : Prop :=
  validDate s.cursor ∧
    ∃ r, validDate r ∧ s.months = createMonths cfg r ∧ isSameMonth s.cursor r = true

/-- The current selection of `useCalendarState`: absent, a single date,
or an array of dates. -/
inductive Selection where
  | none
  | single (d : CalDate)
  | multiple (ds : List CalDate)

/-- `isInvalid` of `useCalendarState` (lines 62-77): an array selection
is invalid when non-empty and some member is disabled or unavailable; a
single selection when that date is; an absent selection never. -/
def isInvalid (isDisabledP isUnavailableP : CalDate → Bool) (sel : Selection) : Bool :=
  match sel with
  | .multiple ds =>
    if ds.isEmpty then false
    else ds.any fun d => isDisabledP d || isUnavailableP d
  | .none => false
  | .single d => isDisabledP d || isUnavailableP d

/-- The dates a selection consists of. -/
def selectionDates : Selection → List CalDate
  | .none => []
  | .single d => [d]
  | .multiple ds => ds

/-- The locale formatter interface, an external collaborator (§6): full
month name and year label of a date. -/
structure DateFormatter where
  fullMonth : CalDate → String
  fullYear : CalDate → String

/-- Modelled from the spec: `useDateFormatter`'s `fullMonthAndYear` is
not under `src/`; §4.4 specifies the single-month heading as
`"<FullMonth> <Year>"` in the given locale. -/
def fullMonthAndYear (f : DateFormatter) (d : CalDate) : String :=
  f.fullMonth d ++ " " ++ f.fullYear d

/-- `headingValue` (lines 190-214): empty window gives `""`; one month
gives the full month and year; several months compare the formatted
years of the first and last visible month and join the names. -/
def headingValue (f : DateFormatter) (ms : List MonthGrid) : String :=
  match ms with
  | [] => ""
  | [g] => fullMonthAndYear f g.month
  | g :: g2 :: rest =>
    let e := (g2 :: rest).getLast (List.cons_ne_nil g2 rest)
    if f.fullYear g.month = f.fullYear e.month then
      f.fullMonth g.month ++ " - " ++ f.fullMonth e.month ++ " " ++ f.fullYear e.month
    else
      f.fullMonth g.month ++ " " ++ f.fullYear g.month ++ " - " ++
        f.fullMonth e.month ++ " " ++ f.fullYear e.month

theorem isSameMonth_refl (a : CalDate) : isSameMonth a a = true := by
  rw [isSameMonth_iff]; exact ⟨rfl, rfl⟩

theorem monthIdx_startOfMonth (d : CalDate) : monthIdx (startOfMonth d) = monthIdx d := rfl

theorem startOfMonth_idem (d : CalDate) : startOfMonth (startOfMonth d) = startOfMonth d := rfl

theorem stepSize_pos {cfg : CalConfig} (h : 0 < cfg.numberOfMonths) : 0 < stepSize cfg := by
  unfold stepSize; split_ifs <;> omega

theorem head_month_of_createMonths {cfg : CalConfig} {r : CalDate} {g : MonthGrid}
    {t : List MonthGrid} (hr : validDate r) (h : createMonths cfg r = g :: t) :
    g.month = startOfMonth r ∧ g.month.day = 1 ∧ validDate g.month ∧
      monthIdx g.month = monthIdx r := by
  have hg := createMonths_head h
  have h0 : addMonths r 0 = r := addMonths_zero hr
  have : g.month = startOfMonth r := by
    rw [hg, createMonth_month]
    norm_num [h0]
  refine ⟨this, by rw [this]; rfl, ?_, by rw [this, monthIdx_startOfMonth]⟩
  rw [this]
  exact validDate_startOfMonth hr.1 hr.2.1

theorem createMonths_cons_of_pos (cfg : CalConfig) (q : CalDate)
    (hN : 0 < cfg.numberOfMonths) :
    ∃ g2 t2, createMonths cfg q = g2 :: t2 := by
  cases h : createMonths cfg q with
  | nil => exact absurd h (createMonths_ne_nil hN)
  | cons a l => exact ⟨a, l, rfl⟩

theorem months_pos_of_inv {cfg : CalConfig} {s : CalState} {g : MonthGrid}
    {t : List MonthGrid} (hInv : Inv cfg s) (hm : s.months = g :: t) :
    0 < cfg.numberOfMonths := by
  obtain ⟨hcv, r, hr, hms, hsm⟩ := hInv
  have hl := createMonths_length cfg r
  rw [← hms, hm] at hl
  simp at hl
  omega

theorem nextPage_spec {cfg : CalConfig} {s : CalState} {g : MonthGrid} {t : List MonthGrid}
    (hInv : Inv cfg s) (hm : s.months = g :: t) :
    nextPage cfg s =
      some ⟨createMonths cfg (addMonths g.month (Int.ofNat (stepSize cfg))),
            addMonths g.month (Int.ofNat (stepSize cfg)), s.minValue, s.maxValue⟩ ∧
    (addMonths g.month (Int.ofNat (stepSize cfg))).day = 1 ∧
    validDate (addMonths g.month (Int.ofNat (stepSize cfg))) ∧
    g.month.day = 1 := by
  obtain ⟨hcv, r, hr, hms, hsm⟩ := hInv
  have hN : 0 < cfg.numberOfMonths := months_pos_of_inv ⟨hcv, r, hr, hms, hsm⟩ hm
  have hk : 0 < stepSize cfg := stepSize_pos hN
  have hcr : createMonths cfg r = g :: t := by rw [← hms, hm]
  obtain ⟨hgm, hgday, hgval, hgidx⟩ := head_month_of_createMonths hr hcr
  have hqday : (addMonths g.month (Int.ofNat (stepSize cfg))).day = 1 :=
    addMonths_day_one hgday _
  have hqval : validDate (addMonths g.month (Int.ofNat (stepSize cfg))) :=
    validDate_addMonths (by omega) _
  obtain ⟨g2, t2, hg2⟩ := createMonths_cons_of_pos cfg
    (addMonths g.month (Int.ofNat (stepSize cfg))) hN
  obtain ⟨hg2m, hg2day, hg2val, hg2idx⟩ := head_month_of_createMonths hqval hg2
  have hsoq : startOfMonth (addMonths g.month (Int.ofNat (stepSize cfg))) =
      addMonths g.month (Int.ofNat (stepSize cfg)) := startOfMonth_day_one hqday
  have hnsm : ¬(isSameMonth (addMonths g.month (Int.ofNat (stepSize cfg))) s.cursor = true) := by
    intro hb
    have h1 := isSameMonth_monthIdx hb
    have h2 := isSameMonth_monthIdx hsm
    have h3 := monthIdx_addMonths g.month (Int.ofNat (stepSize cfg))
    have hk2 : (0 : Int) < Int.ofNat (stepSize cfg) := by rw [Int.ofNat_eq_coe]; exact_mod_cast hk
    linarith
  refine ⟨?_, hqday, hqval, hgday⟩
  unfold nextPage
  rw [hm]
  simp only [List.head?_cons]
  rw [hg2]
  simp only [List.head?_cons]
  unfold watchCursor
  rw [hg2m, startOfMonth_idem, hsoq]
  rw [if_neg hnsm]
  rw [← hg2]

theorem prevPage_spec {cfg : CalConfig} {s : CalState} {g : MonthGrid} {t : List MonthGrid}
    (hInv : Inv cfg s) (hm : s.months = g :: t) :
    prevPage cfg s =
      some ⟨createMonths cfg (addMonths g.month (-(Int.ofNat (stepSize cfg)))),
            addMonths g.month (-(Int.ofNat (stepSize cfg))), s.minValue, s.maxValue⟩ ∧
    (addMonths g.month (-(Int.ofNat (stepSize cfg)))).day = 1 ∧
    validDate (addMonths g.month (-(Int.ofNat (stepSize cfg)))) ∧
    g.month.day = 1 := by
  obtain ⟨hcv, r, hr, hms, hsm⟩ := hInv
  have hN : 0 < cfg.numberOfMonths := months_pos_of_inv ⟨hcv, r, hr, hms, hsm⟩ hm
  have hk : 0 < stepSize cfg := stepSize_pos hN
  have hcr : createMonths cfg r = g :: t := by rw [← hms, hm]
  obtain ⟨hgm, hgday, hgval, hgidx⟩ := head_month_of_createMonths hr hcr
  have hqday : (addMonths g.month (-(Int.ofNat (stepSize cfg)))).day = 1 :=
    addMonths_day_one hgday _
  have hqval : validDate (addMonths g.month (-(Int.ofNat (stepSize cfg)))) :=
    validDate_addMonths (by omega) _
  obtain ⟨g2, t2, hg2⟩ := createMonths_cons_of_pos cfg
    (addMonths g.month (-(Int.ofNat (stepSize cfg)))) hN
  obtain ⟨hg2m, hg2day, hg2val, hg2idx⟩ := head_month_of_createMonths hqval hg2
  have hsoq : startOfMonth (addMonths g.month (-(Int.ofNat (stepSize cfg)))) =
      addMonths g.month (-(Int.ofNat (stepSize cfg))) := startOfMonth_day_one hqday
  have hnsm : ¬(isSameMonth (addMonths g.month (-(Int.ofNat (stepSize cfg)))) s.cursor
      = true) := by
    intro hb
    have h1 := isSameMonth_monthIdx hb
    have h2 := isSameMonth_monthIdx hsm
    have h3 := monthIdx_addMonths g.month (-(Int.ofNat (stepSize cfg)))
    have hk2 : (0 : Int) < Int.ofNat (stepSize cfg) := by rw [Int.ofNat_eq_coe]; exact_mod_cast hk
    linarith
  refine ⟨?_, hqday, hqval, hgday⟩
  unfold prevPage
  rw [hm]
  simp only [List.head?_cons]
  rw [hg2]
  simp only [List.head?_cons]
  unfold watchCursor
  rw [hg2m, startOfMonth_idem, hsoq]
  rw [if_neg hnsm]
  rw [← hg2]

theorem isSameMonth_trans {a b c : CalDate} (h1 : isSameMonth a b = true)
    (h2 : isSameMonth b c = true) : isSameMonth a c = true := by
  rw [isSameMonth_iff] at *
  exact ⟨h1.1.trans h2.1, h1.2.trans h2.2⟩

theorem inv_init (cfg : CalConfig) (env : Env) {c0 : CalDate} (h : validDate c0) :
    Inv cfg (useCalendarInit cfg env c0) :=
  ⟨h, c0, h, rfl, isSameMonth_refl c0⟩

theorem inv_setCursor {cfg : CalConfig} {s : CalState} (hInv : Inv cfg s)
    {v : CalDate} (hv : validDate v) : Inv cfg (setCursor cfg s v) := by
  obtain ⟨hcv, r, hr, hms, hsm⟩ := hInv
  unfold setCursor watchCursor
  dsimp only
  split_ifs with hc
  · exact ⟨hv, r, hr, hms, isSameMonth_trans hc hsm⟩
  · exact ⟨hv, v, hv, rfl, isSameMonth_refl v⟩

theorem inv_nextPage {cfg : CalConfig} {s s' : CalState} (hInv : Inv cfg s)
    (h : nextPage cfg s = some s') : Inv cfg s' := by
  cases hm : s.months with
  | nil =>
    exfalso
    unfold nextPage at h
    rw [hm] at h
    simp at h
  | cons g t =>
    obtain ⟨heq, hqday, hqval, hgday⟩ := nextPage_spec hInv hm
    rw [heq] at h
    obtain rfl := Option.some.injEq _ _ ▸ h.symm
    exact ⟨hqval, _, hqval, rfl, isSameMonth_refl _⟩

theorem inv_prevPage {cfg : CalConfig} {s s' : CalState} (hInv : Inv cfg s)
    (h : prevPage cfg s = some s') : Inv cfg s' := by
  cases hm : s.months with
  | nil =>
    exfalso
    unfold prevPage at h
    rw [hm] at h
    simp at h
  | cons g t =>
    obtain ⟨heq, hqday, hqval, hgday⟩ := prevPage_spec hInv hm
    rw [heq] at h
    obtain rfl := Option.some.injEq _ _ ▸ h.symm
    exact ⟨hqval, _, hqval, rfl, isSameMonth_refl _⟩

theorem inv_reachable {cfg : CalConfig} {s : CalState} (h : Reachable cfg s) :
    Inv cfg s := by
  induction h with
  | init env c0 hc => exact inv_init cfg env hc
  | next s s' hs h ih => exact inv_nextPage ih h
  | prev s s' hs h ih => exact inv_prevPage ih h
  | cursor s v hv hs ih => exact inv_setCursor ih hv

theorem addMonths_add_of_day_one {d : CalDate} (hd : d.day = 1) (a b : Int) :
    addMonths (addMonths d a) b = addMonths d (a + b) := by
  have h1 : (addMonths d a).day = 1 := addMonths_day_one hd a
  rw [addMonths_of_day_one h1, monthIdx_addMonths, addMonths_of_day_one hd (a + b), add_assoc]

theorem stepSize_int (cfg : CalConfig) :
    (Int.ofNat (stepSize cfg)) =
      (if cfg.pagedNavigation then (cfg.numberOfMonths : Int) else 1) := by
  unfold stepSize
  split_ifs <;> simp

theorem watchCursor_minValue (cfg : CalConfig) (s : CalState) (old : CalDate) :
    (watchCursor cfg s old).minValue = s.minValue := by
  unfold watchCursor; split_ifs <;> rfl

theorem watchCursor_maxValue (cfg : CalConfig) (s : CalState) (old : CalDate) :
    (watchCursor cfg s old).maxValue = s.maxValue := by
  unfold watchCursor; split_ifs <;> rfl

theorem get_map_range {α : Type} (f : Nat → α) (n i : Nat)
    (h : i < ((List.range n).map f).length) :
    ((List.range n).map f).get ⟨i, h⟩ = f i := by
  simp [List.get_eq_getElem, List.getElem_map, List.getElem_range]

/-- A concrete one-month configuration (no paging, no fixed weeks, no
matchers), with reactive inputs supplying no bounds, and a mid-June 2024
cursor: fixtures used by the witnesses below. -/
def cfgA : CalConfig := ⟨⟨0, by omega⟩, 1, false, false, none, none⟩

/-- Reactive inputs with no bounds and the calendar enabled. -/
def envA : Env := ⟨none, none, false⟩

/-- A concrete initial cursor date. -/
def dA : CalDate := ⟨2024, 6, 15⟩

/-- The controller state freshly constructed from the fixtures. -/
def sA : CalState := useCalendarInit cfgA envA dA

/-- C1: from every reachable controller state whose visible window is
non-empty, `nextPage` (resp. `prevPage`) produces a window whose first
grid's month is the previous first visible month advanced (resp.
retreated) by `numberOfMonths` months when `pagedNavigation` is true and
by exactly 1 month otherwise. -/
theorem nextPage_prevPage_first_month_step (cfg : CalConfig) (s : CalState)
    (hs : Reachable cfg s) (hne : s.months ≠ []) :
    ∃ g, s.months.head? = some g ∧
      (∃ s' g', nextPage cfg s = some s' ∧ s'.months.head? = some g' ∧
        g'.month = addMonths g.month
          (if cfg.pagedNavigation then (cfg.numberOfMonths : Int) else 1)) ∧
      (∃ s' g', prevPage cfg s = some s' ∧ s'.months.head? = some g' ∧
        g'.month = addMonths g.month
          (-(if cfg.pagedNavigation then (cfg.numberOfMonths : Int) else 1))) := by
  have hInv := inv_reachable hs
  cases hm : s.months with
  | nil => exact absurd hm hne
  | cons g t =>
    have hN : 0 < cfg.numberOfMonths := months_pos_of_inv hInv hm
    refine ⟨g, rfl, ?_, ?_⟩
    · obtain ⟨heq, hqday, hqval, hgday⟩ := nextPage_spec hInv hm
      obtain ⟨g2, t2, hg2⟩ := createMonths_cons_of_pos cfg
        (addMonths g.month (Int.ofNat (stepSize cfg))) hN
      obtain ⟨hg2m, _, _, _⟩ := head_month_of_createMonths hqval hg2
      refine ⟨_, g2, heq, ?_, ?_⟩
      · show (createMonths cfg (addMonths g.month (Int.ofNat (stepSize cfg)))).head? = some g2
        rw [hg2]; rfl
      · rw [hg2m, startOfMonth_day_one hqday, ← stepSize_int]
    · obtain ⟨heq, hqday, hqval, hgday⟩ := prevPage_spec hInv hm
      obtain ⟨g2, t2, hg2⟩ := createMonths_cons_of_pos cfg
        (addMonths g.month (-(Int.ofNat (stepSize cfg)))) hN
      obtain ⟨hg2m, _, _, _⟩ := head_month_of_createMonths hqval hg2
      refine ⟨_, g2, heq, ?_, ?_⟩
      · show (createMonths cfg (addMonths g.month (-(Int.ofNat (stepSize cfg))))).head?
          = some g2
        rw [hg2]; rfl
      · rw [hg2m, startOfMonth_day_one hqday, ← stepSize_int]

/-- C1 witness: the theorem applied to the concrete fixtures. -/
theorem nextPage_prevPage_first_month_step_witness :
    Reachable cfgA sA ∧ sA.months ≠ [] ∧
    (∃ g, sA.months.head? = some g ∧
      (∃ s' g', nextPage cfgA sA = some s' ∧ s'.months.head? = some g' ∧
        g'.month = addMonths g.month
          (if cfgA.pagedNavigation then (cfgA.numberOfMonths : Int) else 1)) ∧
      (∃ s' g', prevPage cfgA sA = some s' ∧ s'.months.head? = some g' ∧
        g'.month = addMonths g.month
          (-(if cfgA.pagedNavigation then (cfgA.numberOfMonths : Int) else 1)))) :=
  ⟨Reachable.init envA dA (by decide), by decide,
    nextPage_prevPage_first_month_step cfgA sA
      (Reachable.init envA dA (by decide)) (by decide)⟩

/-- C3: from every reachable controller state with a non-empty window,
both `nextPage` and `prevPage` leave the shared cursor equal to
`startOfMonth` of the new first visible month. -/
theorem nextPage_prevPage_cursor_sync (cfg : CalConfig) (s : CalState)
    (hs : Reachable cfg s) (hne : s.months ≠ []) :
    (∃ s' g', nextPage cfg s = some s' ∧ s'.months.head? = some g' ∧
      s'.cursor = startOfMonth g'.month) ∧
    (∃ s' g', prevPage cfg s = some s' ∧ s'.months.head? = some g' ∧
      s'.cursor = startOfMonth g'.month) := by
  have hInv := inv_reachable hs
  cases hm : s.months with
  | nil => exact absurd hm hne
  | cons g t =>
    have hN : 0 < cfg.numberOfMonths := months_pos_of_inv hInv hm
    constructor
    · obtain ⟨heq, hqday, hqval, hgday⟩ := nextPage_spec hInv hm
      obtain ⟨g2, t2, hg2⟩ := createMonths_cons_of_pos cfg
        (addMonths g.month (Int.ofNat (stepSize cfg))) hN
      obtain ⟨hg2m, _, _, _⟩ := head_month_of_createMonths hqval hg2
      refine ⟨_, g2, heq, ?_, ?_⟩
      · show (createMonths cfg (addMonths g.month (Int.ofNat (stepSize cfg)))).head? = some g2
        rw [hg2]; rfl
      · show addMonths g.month (Int.ofNat (stepSize cfg)) = startOfMonth g2.month
        rw [hg2m, startOfMonth_idem, startOfMonth_day_one hqday]
    · obtain ⟨heq, hqday, hqval, hgday⟩ := prevPage_spec hInv hm
      obtain ⟨g2, t2, hg2⟩ := createMonths_cons_of_pos cfg
        (addMonths g.month (-(Int.ofNat (stepSize cfg)))) hN
      obtain ⟨hg2m, _, _, _⟩ := head_month_of_createMonths hqval hg2
      refine ⟨_, g2, heq, ?_, ?_⟩
      · show (createMonths cfg (addMonths g.month (-(Int.ofNat (stepSize cfg))))).head?
          = some g2
        rw [hg2]; rfl
      · show addMonths g.month (-(Int.ofNat (stepSize cfg))) = startOfMonth g2.month
        rw [hg2m, startOfMonth_idem, startOfMonth_day_one hqday]

/-- C3 witness: the theorem applied to the concrete fixtures. -/
theorem nextPage_prevPage_cursor_sync_witness :
    Reachable cfgA sA ∧ sA.months ≠ [] ∧
    ((∃ s' g', nextPage cfgA sA = some s' ∧ s'.months.head? = some g' ∧
      s'.cursor = startOfMonth g'.month) ∧
    (∃ s' g', prevPage cfgA sA = some s' ∧ s'.months.head? = some g' ∧
      s'.cursor = startOfMonth g'.month)) :=
  ⟨Reachable.init envA dA (by decide), by decide,
    nextPage_prevPage_cursor_sync cfgA sA
      (Reachable.init envA dA (by decide)) (by decide)⟩

/-- C4: from every reachable state with a non-empty window, unpaged
navigation and no bounds, `nextPage` followed by `prevPage` returns the
window to a grid set whose first month is the original first visible
month. -/
theorem nextPage_prevPage_roundtrip (cfg : CalConfig) (s : CalState)
    (hs : Reachable cfg s) (hpaged : cfg.pagedNavigation = false)
    (hmin : s.minValue = none) (hmax : s.maxValue = none) (hne : s.months ≠ []) :
    ∃ g s1 s2 g2, s.months.head? = some g ∧ nextPage cfg s = some s1 ∧
      prevPage cfg s1 = some s2 ∧ s2.months.head? = some g2 ∧ g2.month = g.month := by
  have hInv := inv_reachable hs
  cases hm : s.months with
  | nil => exact absurd hm hne
  | cons g t =>
    have hN : 0 < cfg.numberOfMonths := months_pos_of_inv hInv hm
    obtain ⟨heq, hqday, hqval, hgday⟩ := nextPage_spec hInv hm
    have hInv1 := inv_nextPage hInv heq
    obtain ⟨gq, tq, hgq⟩ := createMonths_cons_of_pos cfg
      (addMonths g.month (Int.ofNat (stepSize cfg))) hN
    obtain ⟨hgqm, hgqday, hgqval, _⟩ := head_month_of_createMonths hqval hgq
    have hm1 : (⟨createMonths cfg (addMonths g.month (Int.ofNat (stepSize cfg))),
        addMonths g.month (Int.ofNat (stepSize cfg)), s.minValue, s.maxValue⟩ :
        CalState).months = gq :: tq := hgq
    obtain ⟨heq2, hq2day, hq2val, _⟩ := prevPage_spec hInv1 hm1
    obtain ⟨g2, t2, hg2⟩ := createMonths_cons_of_pos cfg
      (addMonths gq.month (-(Int.ofNat (stepSize cfg)))) hN
    obtain ⟨hg2m, _, _, _⟩ := head_month_of_createMonths hq2val hg2
    have hgmon : validDate g.month := by
      obtain ⟨hcv, r, hr, hms, hsm⟩ := hInv
      have hcr : createMonths cfg r = g :: t := by rw [← hms, hm]
      obtain ⟨hgm, _, hgv, _⟩ := head_month_of_createMonths hr hcr
      exact hgv
    have hback : addMonths gq.month (-(Int.ofNat (stepSize cfg))) = g.month := by
      rw [hgqm, startOfMonth_day_one hqday, addMonths_add_of_day_one hgday]
      rw [add_neg_cancel]
      exact addMonths_zero hgmon
    refine ⟨g, _, _, g2, rfl, heq, heq2, ?_, ?_⟩
    · show (createMonths cfg (addMonths gq.month (-(Int.ofNat (stepSize cfg))))).head?
        = some g2
      rw [hg2]; rfl
    · rw [hg2m, hback, startOfMonth_day_one]
      rw [hback] at hq2day
      exact hq2day

/-- C4 witness: the theorem applied to the concrete fixtures. -/
theorem nextPage_prevPage_roundtrip_witness :
    Reachable cfgA sA ∧ cfgA.pagedNavigation = false ∧ sA.minValue = none ∧
    sA.maxValue = none ∧ sA.months ≠ [] ∧
    (∃ g s1 s2 g2, sA.months.head? = some g ∧ nextPage cfgA sA = some s1 ∧
      prevPage cfgA s1 = some s2 ∧ s2.months.head? = some g2 ∧ g2.month = g.month) :=
  ⟨Reachable.init envA dA (by decide), rfl, rfl, rfl, by decide,
    nextPage_prevPage_roundtrip cfgA sA (Reachable.init envA dA (by decide))
      rfl rfl rfl (by decide)⟩

/-- C5: every grid produced for a valid reference date has a date
sequence whose length is a multiple of 7, which advances by exactly one
calendar day per step (hence is strictly increasing, with no gaps or
duplicates), and which has exactly 42 entries when `fixedWeeks` is
true. -/
theorem createMonths_dates_invariants (cfg : CalConfig) (d : CalDate) (hd : validDate d)
    (g : MonthGrid) (hg : g ∈ createMonths cfg d) :
    g.dates.length % 7 = 0 ∧
    (cfg.fixedWeeks = true → g.dates.length = 42) ∧
    (∀ i : Nat, ∀ h1 : i + 1 < g.dates.length,
      g.dates.get ⟨i + 1, h1⟩ = nextDay (g.dates.get ⟨i, Nat.lt_of_succ_lt h1⟩)) ∧
    (∀ i j : Nat, ∀ hi : i < g.dates.length, ∀ hj : j < g.dates.length, i < j →
      rataDie (g.dates.get ⟨i, hi⟩) < rataDie (g.dates.get ⟨j, hj⟩)) := by
  obtain ⟨idx, hidx, rfl⟩ := createMonths_mem hg
  have hmd : validDate (addMonths d (Int.ofNat idx)) :=
    validDate_addMonths hd.2.2.1 _
  obtain ⟨start, total, hEq, hstart, h7, h28, h42, hfix⟩ :=
    createMonth_shape cfg.weekStartsOn cfg.fixedWeeks (addMonths d (Int.ofNat idx)) hmd
  rw [hEq]
  dsimp only
  have hlen : ((List.range total).map (fun i => addDays start i)).length = total := by
    rw [List.length_map, List.length_range]
  refine ⟨by rw [hlen]; exact h7, fun hf => by rw [hlen]; exact hfix hf, ?_, ?_⟩
  · intro i h1
    rw [get_map_range, get_map_range]
    rfl
  · intro i j hi hj hij
    rw [get_map_range, get_map_range]
    rw [rataDie_addDays hstart, rataDie_addDays hstart]
    have hc : (i : Int) < (j : Int) := by exact_mod_cast hij
    linarith

/-- A concrete two-month `fixedWeeks` configuration used by the C5
witness. -/
def cfgB : CalConfig := ⟨⟨1, by omega⟩, 2, true, false, none, none⟩

/-- A concrete reference date for the C5 witness. -/
def dB : CalDate := ⟨2025, 1, 20⟩

/-- C5 witness: the theorem applied to the concrete fixtures, at the
first produced grid. -/
theorem createMonths_dates_invariants_witness :
    validDate dB ∧ (createMonths cfgB dB).headI ∈ createMonths cfgB dB ∧
    ((createMonths cfgB dB).headI.dates.length % 7 = 0 ∧
    (cfgB.fixedWeeks = true → (createMonths cfgB dB).headI.dates.length = 42) ∧
    (∀ i : Nat, ∀ h1 : i + 1 < (createMonths cfgB dB).headI.dates.length,
      (createMonths cfgB dB).headI.dates.get ⟨i + 1, h1⟩ =
        nextDay ((createMonths cfgB dB).headI.dates.get ⟨i, Nat.lt_of_succ_lt h1⟩)) ∧
    (∀ i j : Nat, ∀ hi : i < (createMonths cfgB dB).headI.dates.length,
      ∀ hj : j < (createMonths cfgB dB).headI.dates.length, i < j →
      rataDie ((createMonths cfgB dB).headI.dates.get ⟨i, hi⟩) <
        rataDie ((createMonths cfgB dB).headI.dates.get ⟨j, hj⟩))) :=
  ⟨by decide, by decide,
    createMonths_dates_invariants cfgB dB (by decide) _ (by decide)⟩

/-- Reactive inputs with no bounds and the calendar globally disabled. -/
def envDis : Env := ⟨none, none, true⟩

/-- C2 counterexample: a freshly constructed state with a non-empty
window and no `maxValue`, queried while globally disabled — the claim
says the flag must be `true`, but the code returns `false` because the
`!maxValue` guard short-circuits before the `disabled` check. -/
theorem isNextButtonDisabled_claim_fails :
    (useCalendarInit cfgA envA dA).months ≠ [] ∧
    (useCalendarInit cfgA envA dA).maxValue = none ∧
    envDis.disabled = true ∧
    isNextButtonDisabled (useCalendarInit cfgA envA dA) envDis = false := by
  refine ⟨by decide, rfl, rfl, ?_⟩
  rfl

/-- C2 (amended): `isNextButtonDisabled` is `true` exactly when
`maxValue` is set, some months are visible, and either the calendar is
globally disabled or `startOfMonth(lastVisibleMonth.addMonths(1))` is
strictly after `maxValue`; with no `maxValue` or no visible months it is
`false` even when globally disabled. -/
theorem isNextButtonDisabled_iff (s : CalState) (env : Env) :
    isNextButtonDisabled s env = true ↔
      ∃ mx g, s.maxValue = some mx ∧ s.months.getLast? = some g ∧
        (env.disabled = true ∨
          isAfter (startOfMonth (addMonths g.month 1)) mx = true) := by
  unfold isNextButtonDisabled
  rcases hmx : s.maxValue with _ | mx <;> rcases hml : s.months.getLast? with _ | g <;>
    simp [hmx, hml, Bool.or_eq_true]

/-- C6 counterexample: a freshly constructed state with a non-empty
window and no `minValue`, queried while globally disabled — the claim
says the flag must be `true`, but the code returns `false` because the
`!minValue` guard short-circuits before the `disabled` check. -/
theorem isPrevButtonDisabled_claim_fails :
    (useCalendarInit cfgA envA dA).months ≠ [] ∧
    (useCalendarInit cfgA envA dA).minValue = none ∧
    envDis.disabled = true ∧
    isPrevButtonDisabled (useCalendarInit cfgA envA dA) envDis = false := by
  refine ⟨by decide, rfl, rfl, ?_⟩
  rfl

/-- C6 (amended): `isPrevButtonDisabled` is `true` exactly when
`minValue` is set, some months are visible, and either the calendar is
globally disabled or `endOfMonth(firstVisibleMonth.subtractMonths(1))`
is strictly before `minValue`; with no `minValue` or no visible months
it is `false` even when globally disabled. -/
theorem isPrevButtonDisabled_iff (s : CalState) (env : Env) :
    isPrevButtonDisabled s env = true ↔
      ∃ mn g, s.minValue = some mn ∧ s.months.head? = some g ∧
        (env.disabled = true ∨
          isBefore (endOfMonth (addMonths g.month (-1))) mn = true) := by
  unfold isPrevButtonDisabled
  rcases hmn : s.minValue with _ | mn <;> rcases hml : s.months.head? with _ | g <;>
    simp [hmn, hml, Bool.or_eq_true]

/-- A configuration with `numberOfMonths = 0`, invalid per the spec. -/
def cfgZero : CalConfig := ⟨⟨0, by omega⟩, 0, false, false, none, none⟩

/-- C7 counterexample: constructing with `numberOfMonths = 0` does not
fail — construction completes normally and the degenerate count flows
into grid-building, which returns an empty window. -/
theorem construction_accepts_invalid_config :
    cfgZero.numberOfMonths < 1 ∧
    (useCalendarInit cfgZero envA dA).months = [] := by
  exact ⟨by decide, rfl⟩

/-- C7 (amended): construction performs no runtime validation —
`weekStartsOn` outside `0..6` is excluded statically by the `DayOfWeek`
type, and every `numberOfMonths` (including values below 1) is accepted,
construction always completing with exactly `numberOfMonths` grids. -/
theorem construction_never_rejects (cfg : CalConfig) (env : Env) (c : CalDate) :
    (useCalendarInit cfg env c).months.length = cfg.numberOfMonths :=
  createMonths_length cfg c

/-- C8: `isInvalid` is `true` exactly when some date of the current
selection is disabled or unavailable per the supplied predicates; in
particular an empty or absent selection is always valid. -/
theorem isInvalid_iff (dp up : CalDate → Bool) (sel : Selection) :
    (isInvalid dp up sel = true ↔
      ∃ d ∈ selectionDates sel, (dp d || up d) = true) ∧
    (selectionDates sel = [] → isInvalid dp up sel = false) := by
  cases sel with
  | none => simp [isInvalid, selectionDates]
  | single d => simp [isInvalid, selectionDates]
  | multiple ds =>
    cases ds with
    | nil => simp [isInvalid, selectionDates]
    | cons a l => simp [isInvalid, selectionDates, List.any_eq_true]

/-- C8 witness: the theorem applied to concrete predicates and a
concrete two-date selection. -/
theorem isInvalid_iff_witness :
    ((isInvalid (fun d => decide (d.day = 3)) (fun _ => false)
        (Selection.multiple [⟨2024, 6, 3⟩, ⟨2024, 6, 4⟩]) = true ↔
      ∃ d ∈ selectionDates (Selection.multiple [⟨2024, 6, 3⟩, ⟨2024, 6, 4⟩]),
        ((fun d : CalDate => decide (d.day = 3)) d || (fun _ : CalDate => false) d) = true) ∧
    (selectionDates (Selection.multiple [⟨2024, 6, 3⟩, ⟨2024, 6, 4⟩]) = [] →
      isInvalid (fun d => decide (d.day = 3)) (fun _ => false)
        (Selection.multiple [⟨2024, 6, 3⟩, ⟨2024, 6, 4⟩]) = false)) :=
  isInvalid_iff (fun d => decide (d.day = 3)) (fun _ => false)
    (Selection.multiple [⟨2024, 6, 3⟩, ⟨2024, 6, 4⟩])

/-- C9: provided the formatter's year labels agree exactly when the
years of the first and last visible months agree, the heading is
`"<FullMonth> <Year>"` for a single visible month,
`"<FirstMonth> - <LastMonth> <Year>"` for several months in one year,
and `"<FirstMonth> <FirstYear> - <LastMonth> <LastYear>"` across a year
boundary. -/
theorem headingValue_label_cases (f : DateFormatter) (ms : List MonthGrid) (g e : MonthGrid)
    (hhead : ms.head? = some g) (hlast : ms.getLast? = some e)
    (hY : (f.fullYear g.month = f.fullYear e.month) ↔ g.month.year = e.month.year) :
    (ms.length = 1 →
      headingValue f ms = f.fullMonth g.month ++ " " ++ f.fullYear g.month) ∧
    (1 < ms.length → g.month.year = e.month.year →
      headingValue f ms =
        f.fullMonth g.month ++ " - " ++ f.fullMonth e.month ++ " " ++ f.fullYear e.month) ∧
    (1 < ms.length → g.month.year ≠ e.month.year →
      headingValue f ms = f.fullMonth g.month ++ " " ++ f.fullYear g.month ++ " - " ++
        f.fullMonth e.month ++ " " ++ f.fullYear e.month) := by
  cases ms with
  | nil => simp at hhead
  | cons g0 rest =>
    have hg0 : g0 = g := by simpa using hhead
    subst hg0
    cases rest with
    | nil =>
      have he : g0 = e := by simpa using hlast
      subst he
      refine ⟨fun _ => rfl, fun h => ?_, fun h => ?_⟩ <;> norm_num at h
    | cons g1 rest1 =>
      have hne : (g1 :: rest1) ≠ [] := List.cons_ne_nil g1 rest1
      have hLast : (g0 :: g1 :: rest1).getLast (List.cons_ne_nil g0 (g1 :: rest1)) = e := by
        have hx := List.getLast?_eq_getLast_of_ne_nil
          (l := g0 :: g1 :: rest1) (List.cons_ne_nil g0 (g1 :: rest1))
        rw [hx] at hlast
        exact Option.some_injective _ hlast
      have hE : (g1 :: rest1).getLast hne = e := by
        rw [← hLast, List.getLast_cons hne]
      unfold headingValue
      dsimp only
      rw [hE]
      refine ⟨fun h => by norm_num at h, fun _ hyr => ?_, fun _ hyr => ?_⟩
      · rw [if_pos (hY.mpr hyr)]
      · rw [if_neg (fun hc => hyr (hY.mp hc))]

/-- A concrete formatter for the C9 witness. -/
def fmtW : DateFormatter := ⟨fun _ => "June", fun _ => "2024"⟩

/-- A concrete grid for the C9 witness. -/
def gW : MonthGrid := ⟨⟨2024, 6, 1⟩, []⟩

/-- C9 witness: the theorem applied to a concrete one-month window. -/
theorem headingValue_label_cases_witness :
    ([gW].head? = some gW) ∧ ([gW].getLast? = some gW) ∧
    ((fmtW.fullYear gW.month = fmtW.fullYear gW.month) ↔
      gW.month.year = gW.month.year) ∧
    (([gW].length = 1 →
      headingValue fmtW [gW] = fmtW.fullMonth gW.month ++ " " ++ fmtW.fullYear gW.month) ∧
    (1 < [gW].length → gW.month.year = gW.month.year →
      headingValue fmtW [gW] = fmtW.fullMonth gW.month ++ " - " ++ fmtW.fullMonth gW.month
        ++ " " ++ fmtW.fullYear gW.month) ∧
    (1 < [gW].length → gW.month.year ≠ gW.month.year →
      headingValue fmtW [gW] = fmtW.fullMonth gW.month ++ " " ++ fmtW.fullYear gW.month
        ++ " - " ++ fmtW.fullMonth gW.month ++ " " ++ fmtW.fullYear gW.month)) :=
  ⟨rfl, rfl, ⟨fun _ => rfl, fun _ => rfl⟩,
    headingValue_label_cases fmtW [gW] gW gW rfl rfl ⟨fun _ => rfl, fun _ => rfl⟩⟩

theorem nextPage_minValue (cfg : CalConfig) (s : CalState) :
    ((nextPage cfg s).getD s).minValue = s.minValue := by
  unfold nextPage
  split
  · rfl
  · split
    · rfl
    · rw [Option.getD_some, watchCursor_minValue]

theorem nextPage_maxValue (cfg : CalConfig) (s : CalState) :
    ((nextPage cfg s).getD s).maxValue = s.maxValue := by
  unfold nextPage
  split
  · rfl
  · split
    · rfl
    · rw [Option.getD_some, watchCursor_maxValue]

theorem prevPage_minValue (cfg : CalConfig) (s : CalState) :
    ((prevPage cfg s).getD s).minValue = s.minValue := by
  unfold prevPage
  split
  · rfl
  · split
    · rfl
    · rw [Option.getD_some, watchCursor_minValue]

theorem prevPage_maxValue (cfg : CalConfig) (s : CalState) :
    ((prevPage cfg s).getD s).maxValue = s.maxValue := by
  unfold prevPage
  split
  · rfl
  · split
    · rfl
    · rw [Option.getD_some, watchCursor_maxValue]

/-- C10: the bounds are captured once — construction stores the
`minValue`/`maxValue` inputs of the moment, no operation ever changes
the stored bounds, and the queries `isDateDisabled`,
`isNextButtonDisabled` and `isPrevButtonDisabled` ignore the current
values of the external `minValue`/`maxValue` inputs (they read the
current inputs only through `disabled`). -/
theorem bounds_captured_at_construction (cfg : CalConfig) (env : Env) (c : CalDate)
    (s : CalState) (mn mx : Option CalDate) (dte : CalDate) :
    (useCalendarInit cfg env c).minValue = env.minValue ∧
    (useCalendarInit cfg env c).maxValue = env.maxValue ∧
    ((nextPage cfg s).getD s).minValue = s.minValue ∧
    ((nextPage cfg s).getD s).maxValue = s.maxValue ∧
    ((prevPage cfg s).getD s).minValue = s.minValue ∧
    ((prevPage cfg s).getD s).maxValue = s.maxValue ∧
    (setCursor cfg s c).minValue = s.minValue ∧
    (setCursor cfg s c).maxValue = s.maxValue ∧
    isDateDisabled cfg s ⟨mn, mx, env.disabled⟩ dte = isDateDisabled cfg s env dte ∧
    isNextButtonDisabled s ⟨mn, mx, env.disabled⟩ = isNextButtonDisabled s env ∧
    isPrevButtonDisabled s ⟨mn, mx, env.disabled⟩ = isPrevButtonDisabled s env :=
  ⟨rfl, rfl, nextPage_minValue cfg s, nextPage_maxValue cfg s,
    prevPage_minValue cfg s, prevPage_maxValue cfg s,
    watchCursor_minValue cfg _ _, watchCursor_maxValue cfg _ _, rfl, rfl, rfl⟩

end VueCal
